import Mathlib

/-!
# Verification of the Imaging-Protocol-Assist review pipeline

A shallow embedding of the core of the repository:

* `src/agents/agent3_reviewer.py` — field normalization (`normalize_fields`,
  `FIELD_ALIASES`), resilient JSON extraction (`extract_json_from_text`),
  scoring (`score_agent2`), feedback-shape coercion (`_coerce_feedback_shape`),
  the review step (`run_review_agent`) and the CLI input loader
  (`load_patient_data`);
* `src/main.py` — the confidence-gated orchestration loop of `run_pipeline`.

Python strings are modelled as `List Char` (`PyStr`), Python dicts as
association lists with Python's insert-with-overwrite semantics, Python
floats as `ℚ` (the standard rational stand-in; IEEE specials such as
infinities and NaN are outside this model and noted where relevant), and
JSON values as the inductive `JsonVal`.  External collaborators (the LLM
calls, the renal rule tool, the hallucination detector, the file system)
are modelled as explicit inputs: the embedded functions take the raw texts
and records those collaborators return.
-/

/-! ## Python string primitives -/

/-- Python strings, modelled as their character sequences. -/
abbrev PyStr := List Char

/-- The characters Python's `str.strip()` (with no argument) removes, and the
characters matched by `\s` in the `re` patterns of the source (ASCII range):
space, tab, newline, carriage return, vertical tab, form feed. -/
def isPyWs (c : Char) : Bool :=
  c = ' ' || c = '\t' || c = '\n' || c = '\r' || c = Char.ofNat 11 || c = Char.ofNat 12

/-- Lower-casing of one character, as Python's `str.lower()` acts on the ASCII
letters used by the repository's field names (identical to `Char.toLower`). -/
def lowerChar (c : Char) : Char :=
  if 65 ≤ c.toNat ∧ c.toNat ≤ 90 then Char.ofNat (c.toNat + 32) else c

/-- `s.lower()` on the ASCII fragment. -/
def pyLower (s : PyStr) : PyStr := s.map lowerChar

/-- `s.strip()`: remove leading and trailing whitespace. -/
def pyStrip (s : PyStr) : PyStr :=
  ((s.dropWhile isPyWs).reverse.dropWhile isPyWs).reverse

/-- `k.lower().strip()`, the key preprocessing of `normalize_fields`
(`agent3_reviewer.py`, line 61). -/
def lowerStrip (s : PyStr) : PyStr := pyStrip (pyLower s)

/-! ## Python dicts as association lists -/

/-- `d[k] = v` on a Python dict: overwrite in place when the key is present
(keeping its position), append otherwise. -/
def dictInsert (d : List (PyStr × α)) (k : PyStr) (v : α) : List (PyStr × α) :=
  if d.any (fun p => decide (p.1 = k)) then
    d.map (fun p => if p.1 = k then (k, v) else p)
  else d ++ [(k, v)]

/-- `d.get(k)` on a Python dict (keys are unique in any dict this model
builds, and lookup takes the first match). -/
def dictGet (d : List (PyStr × α)) (k : PyStr) : Option α :=
  (d.find? (fun p => decide (p.1 = k))).map (fun p => p.2)

/-! ## The field alias table and `normalize_fields`

`agent3_reviewer.py`, lines 25-64. -/

/-- `FIELD_ALIASES` (lines 25-52): many-to-one map of messy spellings to
canonical field names, all-lower for reliable matching. -/
def FIELD_ALIASES : List (PyStr × PyStr) :=
  [ (("potassium_meq_l").data, ("potassium_mmol_l").data)
  , (("k_meq_l").data, ("potassium_mmol_l").data)
  , (("k_mmol_l").data, ("potassium_mmol_l").data)
  , (("potassium").data, ("potassium_mmol_l").data)
  , (("serum_potassium").data, ("potassium_mmol_l").data)
  , (("bun").data, ("bun_mg_dl").data)
  , (("bun_mmol_l").data, ("bun_mg_dl").data)
  , (("bun_mgdl").data, ("bun_mg_dl").data)
  , (("creatinine").data, ("creatinine_mg_dl").data)
  , (("creatinine_mgdl").data, ("creatinine_mg_dl").data)
  , (("serum_creatinine").data, ("creatinine_mg_dl").data)
  , (("cr").data, ("creatinine_mg_dl").data)
  , (("gfr").data, ("egfr_ckd_epi").data)
  , (("egfr").data, ("egfr_ckd_epi").data)
  , (("estimated_gfr").data, ("egfr_ckd_epi").data)
  , (("body_mass_index").data, ("bmi").data)
  , (("body_mass_idx").data, ("bmi").data) ]

/-- `FIELD_ALIASES.get(k)`. -/
def aliasGet (k : PyStr) : Option PyStr :=
  (FIELD_ALIASES.find? (fun p => decide (p.1 = k))).map (fun p => p.2)

/-- The canonical name `normalize_fields` rewrites a key to:
`FIELD_ALIASES.get(key_lower, key_lower)` with `key_lower = k.lower().strip()`
(lines 61-62). -/
def canonicalOf (k : PyStr) : PyStr :=
  match aliasGet (lowerStrip k) with
  | some c => c
  | none => lowerStrip k

/-- `normalize_fields` (lines 57-64): rebuild the dict, rewriting every key to
its canonical name; Python's `normalized[canonical] = v` makes a later
duplicate overwrite an earlier one. -/
def normalize_fields (d : List (PyStr × α)) : List (PyStr × α) :=
  d.foldl (fun acc p => dictInsert acc (canonicalOf p.1) p.2) []

/-! ## Character-level lemmas for the normalizer -/

theorem toNat_ofNat_valid {n : Nat} (h : n.isValidChar) :
    (Char.ofNat n).toNat = n := by
  rw [Char.ofNat, dif_pos h]
  rfl

theorem lowerChar_idem (c : Char) : lowerChar (lowerChar c) = lowerChar c := by
  unfold lowerChar
  by_cases h : 65 ≤ c.toNat ∧ c.toNat ≤ 90
  · rw [if_pos h]
    have hv : (c.toNat + 32).isValidChar := by
      left
      omega
    rw [if_neg]
    rw [toNat_ofNat_valid hv]
    omega
  · rw [if_neg h, if_neg h]

theorem pyLower_idem (s : PyStr) : pyLower (pyLower s) = pyLower s := by
  unfold pyLower
  rw [List.map_map]
  exact List.map_congr_left (fun c _ => lowerChar_idem c)

theorem mem_of_mem_dropWhile {p : Char → Bool} {c : Char} {s : List Char}
    (h : c ∈ s.dropWhile p) : c ∈ s := by
  induction s with
  | nil => simp at h
  | cons a t ih =>
    rw [List.dropWhile_cons] at h
    by_cases hp : p a = true
    · simp only [hp, if_true] at h
      exact List.mem_cons_of_mem _ (ih h)
    · simp only [hp] at h
      simpa using h

theorem mem_of_mem_pyStrip {c : Char} {s : PyStr} (h : c ∈ pyStrip s) : c ∈ s := by
  unfold pyStrip at h
  rw [List.mem_reverse] at h
  have h1 := mem_of_mem_dropWhile h
  rw [List.mem_reverse] at h1
  exact mem_of_mem_dropWhile h1

theorem pyLower_eq_self {s : PyStr} (h : ∀ c ∈ s, lowerChar c = c) :
    pyLower s = s := by
  unfold pyLower
  induction s with
  | nil => rfl
  | cons a t ih =>
    rw [List.map_cons, h a (List.mem_cons_self a t),
      ih (fun c hc => h c (List.mem_cons_of_mem _ hc))]

theorem dropWhile_eq_self_of_head? {p : Char → Bool} {s : List Char}
    (h : ∀ a, s.head? = some a → p a = false) : s.dropWhile p = s := by
  cases s with
  | nil => rfl
  | cons a t =>
    rw [List.dropWhile_cons, h a rfl]
    simp

/-- `dropWhile` yields a suffix, so a nonempty result ends where the input
ends. -/
theorem getLast?_dropWhile {p : Char → Bool} {s : List Char}
    (h : s.dropWhile p ≠ []) : (s.dropWhile p).getLast? = s.getLast? := by
  induction s with
  | nil => simp at h
  | cons a t ih =>
    rw [List.dropWhile_cons] at h ⊢
    by_cases hp : p a = true
    · rw [if_pos hp] at h ⊢
      rw [ih h]
      cases t with
      | nil => simp at h
      | cons b u => rw [List.getLast?_cons_cons]
    · rw [if_neg hp]

theorem pyStrip_idem (s : PyStr) : pyStrip (pyStrip s) = pyStrip s := by
  by_cases hn : pyStrip s = []
  · rw [hn]
    rfl
  · have hvne : (s.dropWhile isPyWs).reverse.dropWhile isPyWs ≠ [] := by
      intro h
      apply hn
      unfold pyStrip
      rw [h]
      rfl
    unfold pyStrip
    -- the head of `pyStrip s` is the head of the first `dropWhile`: not
    -- whitespace, so the outer leading `dropWhile` is the identity.
    have h1 : ((s.dropWhile isPyWs).reverse.dropWhile isPyWs).reverse.dropWhile isPyWs
        = ((s.dropWhile isPyWs).reverse.dropWhile isPyWs).reverse := by
      apply dropWhile_eq_self_of_head?
      intro a ha
      rw [List.head?_reverse, getLast?_dropWhile hvne, List.getLast?_reverse] at ha
      have h0 := List.head?_dropWhile_not isPyWs s
      rw [ha] at h0
      exact h0
    rw [h1, List.reverse_reverse]
    -- the last char of `pyStrip s` heads the inner `dropWhile`: not
    -- whitespace either, so the trailing `dropWhile` is the identity too.
    have h2 : ((s.dropWhile isPyWs).reverse.dropWhile isPyWs).dropWhile isPyWs
        = (s.dropWhile isPyWs).reverse.dropWhile isPyWs := by
      apply dropWhile_eq_self_of_head?
      intro a ha
      have h0 := List.head?_dropWhile_not isPyWs (s.dropWhile isPyWs).reverse
      rw [ha] at h0
      exact h0
    rw [h2]

theorem pyLower_pyStrip_lower (s : PyStr) :
    pyLower (pyStrip (pyLower s)) = pyStrip (pyLower s) := by
  apply pyLower_eq_self
  intro c hc
  have hc2 : c ∈ pyLower s := mem_of_mem_pyStrip hc
  unfold pyLower at hc2
  obtain ⟨c0, _, rfl⟩ := List.mem_map.mp hc2
  exact lowerChar_idem c0

theorem lowerStrip_idem (s : PyStr) : lowerStrip (lowerStrip s) = lowerStrip s := by
  unfold lowerStrip
  rw [pyLower_pyStrip_lower, pyStrip_idem]

/-- Every canonical value of the alias table is itself a fixed point of
`canonicalOf` (checked by evaluation over the 17 entries). -/
theorem alias_values_fixed : ∀ p ∈ FIELD_ALIASES, canonicalOf p.2 = p.2 := by
  decide

/-- Keys of the alias table are already lower-case and stripped, so
`canonicalOf` sends each alias to its canonical name (checked by
evaluation). -/
theorem alias_keys_mapped : ∀ p ∈ FIELD_ALIASES, canonicalOf p.1 = p.2 := by
  decide

theorem canonicalOf_fixed (k : PyStr) : canonicalOf (canonicalOf k) = canonicalOf k := by
  unfold canonicalOf
  cases hfind : aliasGet (lowerStrip k) with
  | some c =>
    have hmem : ∃ p ∈ FIELD_ALIASES, p.2 = c := by
      unfold aliasGet at hfind
      obtain ⟨p, hp1, hp2⟩ := Option.map_eq_some'.mp hfind
      exact ⟨p, List.mem_of_find?_eq_some hp1, hp2⟩
    obtain ⟨p, hp, rfl⟩ := hmem
    have := alias_values_fixed p hp
    unfold canonicalOf at this
    exact this
  | none =>
    rw [lowerStrip_idem, hfind]

/-! ## JSON values and a model of `json.loads`

`extract_json_from_text`, `score_agent2` and `load_patient_data` all lean on
Python's `json.loads`.  We embed the JSON grammar that scanner accepts
(objects, arrays, strings with escapes, numbers, `true`/`false`/`null`;
numbers are modelled as rationals — the non-standard `NaN`/`Infinity`
extensions have no rational counterpart and are outside this model). -/

/-- A decoded JSON value.  Python ints and floats both land in `num`. -/
inductive JsonVal where
  | null : JsonVal
  | bool : Bool → JsonVal
  | num : ℚ → JsonVal
  | str : PyStr → JsonVal
  | arr : List JsonVal → JsonVal
  | obj : List (PyStr × JsonVal) → JsonVal

/-- Characters the JSON scanner skips between tokens. -/
def isJsonWs (c : Char) : Bool :=
  c = ' ' || c = '\t' || c = '\n' || c = '\r'

def skipJsonWs (s : List Char) : List Char := s.dropWhile isJsonWs

/-- Literal `{` (written via its code point to keep a brace out of the text). -/
def lbrace : Char := Char.ofNat 123

/-- Literal `}`. -/
def rbrace : Char := Char.ofNat 125

/-- Literal backtick. -/
def btick : Char := Char.ofNat 96

/-- Literal single quote. -/
def squote : Char := Char.ofNat 39

def hexVal (c : Char) : Option Nat :=
  if 48 ≤ c.toNat ∧ c.toNat ≤ 57 then some (c.toNat - 48)
  else if 97 ≤ c.toNat ∧ c.toNat ≤ 102 then some (c.toNat - 87)
  else if 65 ≤ c.toNat ∧ c.toNat ≤ 70 then some (c.toNat - 55)
  else none

/-- The single-character JSON string escapes. -/
def escMap (c : Char) : Option Char :=
  if c = '"' then some '"'
  else if c = '\\' then some '\\'
  else if c = '/' then some '/'
  else if c = 'b' then some (Char.ofNat 8)
  else if c = 'f' then some (Char.ofNat 12)
  else if c = 'n' then some '\n'
  else if c = 'r' then some '\r'
  else if c = 't' then some '\t'
  else none

/-- Parse the remainder of a JSON string (the opening quote already
consumed); strict mode, so unescaped control characters are rejected. -/
def parseStringTail : List Char → Option (PyStr × List Char)
  | [] => none
  | c :: rest =>
    if c = '"' then some ([], rest)
    else if c = '\\' then
      match rest with
      | [] => none
      | e :: r2 =>
        if e = 'u' then
          match r2 with
          | a :: b :: c2 :: d :: r3 =>
            match hexVal a, hexVal b, hexVal c2, hexVal d with
            | some x, some y, some z, some w =>
              (parseStringTail r3).map
                (fun pr => (Char.ofNat (((x * 16 + y) * 16 + z) * 16 + w) :: pr.1, pr.2))
            | _, _, _, _ => none
          | _ => none
        else
          match escMap e with
          | some ec => (parseStringTail r2).map (fun pr => (ec :: pr.1, pr.2))
          | none => none
    else if c.toNat < 32 then none
    else (parseStringTail rest).map (fun pr => (c :: pr.1, pr.2))

def isDigitCh (c : Char) : Bool := 48 ≤ c.toNat && c.toNat ≤ 57

def natOfDigits (ds : List Char) : Nat :=
  ds.foldl (fun a c => a * 10 + (c.toNat - 48)) 0

/-- The integer part of a JSON number: `0`, or a nonzero digit followed by
digits (leading zeros are not accepted by the scanner). -/
def parseIntPart : List Char → Option (List Char × List Char)
  | [] => none
  | c :: rest =>
    if c = '0' then some ([c], rest)
    else if isDigitCh c then
      some (c :: rest.takeWhile isDigitCh, rest.dropWhile isDigitCh)
    else none

/-- Optional fraction: consumed only as `.` followed by at least one digit. -/
def parseFracPart (s : List Char) : List Char × List Char :=
  match s with
  | c :: rest =>
    if c = '.' then
      match rest.takeWhile isDigitCh with
      | [] => ([], s)
      | ds => (ds, rest.dropWhile isDigitCh)
    else ([], s)
  | [] => ([], s)

/-- Optional exponent: `e`/`E`, optional sign, at least one digit. -/
def parseExpPart (s : List Char) : Int × List Char :=
  match s with
  | c :: rest =>
    if c = 'e' ∨ c = 'E' then
      match rest with
      | s2 :: r2 =>
        if s2 = '-' then
          match r2.takeWhile isDigitCh with
          | [] => (0, s)
          | ds => (-(natOfDigits ds : Int), r2.dropWhile isDigitCh)
        else if s2 = '+' then
          match r2.takeWhile isDigitCh with
          | [] => (0, s)
          | ds => ((natOfDigits ds : Int), r2.dropWhile isDigitCh)
        else
          match rest.takeWhile isDigitCh with
          | [] => (0, s)
          | ds => ((natOfDigits ds : Int), rest.dropWhile isDigitCh)
      | [] => (0, s)
    else (0, s)
  | [] => (0, s)

/-- `10 ^ e` as a rational, spelled with the core `Rat` constructors so a
parsed number evaluates under kernel reduction. -/
def pow10 (e : Int) : ℚ :=
  if 0 ≤ e then mkRat ((10 : Nat) ^ e.toNat) 1 else mkRat 1 ((10 : Nat) ^ (-e).toNat)

/-- Fraction addition via `mkRat` (extensionally the rational `+`, spelled
so concrete values evaluate). -/
def ratAdd (a b : ℚ) : ℚ := mkRat (a.num * b.den + b.num * a.den) (a.den * b.den)

/-- Fraction multiplication via `mkRat`. -/
def ratMul (a b : ℚ) : ℚ := mkRat (a.num * b.num) (a.den * b.den)

/-- Fraction negation via `mkRat`. -/
def ratNeg (a : ℚ) : ℚ := mkRat (-a.num) a.den

/-- Parse a JSON number token and its rational value
`±(int + frac/10^k) * 10^exp` (built with the core `Rat` operations, which
agree with the field operations of `ℚ`). -/
def parseNumber (s : List Char) : Option (JsonVal × List Char) :=
  let signed : Bool × List Char :=
    match s with
    | c :: r => if c = '-' then (true, r) else (false, s)
    | [] => (false, s)
  match parseIntPart signed.2 with
  | none => none
  | some (ids, s2) =>
    let fr := parseFracPart s2
    let ex := parseExpPart fr.2
    let base : ℚ := ratAdd (mkRat (natOfDigits ids) 1)
      (mkRat (natOfDigits fr.1) ((10 : Nat) ^ fr.1.length))
    let q : ℚ := ratMul (if signed.1 then ratNeg base else base) (pow10 ex.1)
    some (.num q, ex.2)

def hasPrefixL : List Char → List Char → Bool
  | [], _ => true
  | _ :: _, [] => false
  | p :: ps, c :: cs => p == c && hasPrefixL ps cs

mutual

/-- One JSON value (the scanner skips whitespace first).  The fuel only
bounds recursion depth; `json_loads` supplies more than the input length,
which is always sufficient since every nested call consumes input. -/
def parseValue : Nat → List Char → Option (JsonVal × List Char)
  | 0, _ => none
  | fuel + 1, s =>
    match skipJsonWs s with
    | [] => none
    | c :: rest =>
      if c = lbrace then
        match skipJsonWs rest with
        | c2 :: r2 =>
          if c2 = rbrace then some (.obj [], r2)
          else parseMembers fuel (c2 :: r2) []
        | [] => none
      else if c = '[' then
        match skipJsonWs rest with
        | c2 :: r2 =>
          if c2 = ']' then some (.arr [], r2)
          else parseItems fuel (c2 :: r2) []
        | [] => none
      else if c = '"' then
        (parseStringTail rest).map (fun pr => (JsonVal.str pr.1, pr.2))
      else if hasPrefixL ("true").data (c :: rest) then
        some (.bool true, rest.drop 3)
      else if hasPrefixL ("false").data (c :: rest) then
        some (.bool false, rest.drop 4)
      else if hasPrefixL ("null").data (c :: rest) then
        some (.null, rest.drop 3)
      else parseNumber (c :: rest)

/-- Object members, positioned at a key (duplicate keys overwrite, as in a
Python dict). -/
def parseMembers : Nat → List Char → List (PyStr × JsonVal) →
    Option (JsonVal × List Char)
  | 0, _, _ => none
  | fuel + 1, s, acc =>
    match s with
    | [] => none
    | c :: rest =>
      if c = '"' then
        match parseStringTail rest with
        | none => none
        | some (key, r1) =>
          match skipJsonWs r1 with
          | ':' :: r2 =>
            match parseValue fuel r2 with
            | none => none
            | some (v, r3) =>
              match skipJsonWs r3 with
              | ',' :: r4 => parseMembers fuel (skipJsonWs r4) (dictInsert acc key v)
              | c2 :: r4 =>
                if c2 = rbrace then some (.obj (dictInsert acc key v), r4) else none
              | [] => none
          | _ => none
      else none

/-- Array items, positioned at a value. -/
def parseItems : Nat → List Char → List JsonVal → Option (JsonVal × List Char)
  | 0, _, _ => none
  | fuel + 1, s, acc =>
    match parseValue fuel s with
    | none => none
    | some (v, r) =>
      match skipJsonWs r with
      | ',' :: r2 => parseItems fuel r2 (acc ++ [v])
      | c2 :: r2 => if c2 = ']' then some (.arr (acc ++ [v]), r2) else none
      | [] => none

end

/-- `json.loads`: parse one value and require only whitespace to follow;
`none` models a raised `json.JSONDecodeError`. -/
def json_loads (s : PyStr) : Option JsonVal :=
  match parseValue (s.length + 1) s with
  | some (v, rest) => if skipJsonWs rest = [] then some v else none
  | none => none

/-! ## Python `float()` and `str()` on decoded values -/

/-- `float(s)` for a string: optional surrounding whitespace and sign, then
`digits[.digits]`, `.digits`, with an optional exponent; returns the value on
success, `none` for a raised `ValueError`.  (`inf`/`nan` spellings and digit
underscores have no rational counterpart and are outside this model.) -/
def pyFloatOfString (s : PyStr) : Option ℚ :=
  let t := pyStrip s
  let signed : Bool × PyStr :=
    match t with
    | c :: r => if c = '-' then (true, r) else if c = '+' then (false, r) else (false, t)
    | [] => (false, t)
  let ip := signed.2.takeWhile isDigitCh
  let r1 := signed.2.dropWhile isDigitCh
  let fracd : PyStr × PyStr :=
    match r1 with
    | c :: rr => if c = '.' then (rr.takeWhile isDigitCh, rr.dropWhile isDigitCh) else ([], r1)
    | [] => ([], r1)
  if ip = [] ∧ fracd.1 = [] then none
  else
    let mant : ℚ := ratAdd (mkRat (natOfDigits ip) 1)
      (mkRat (natOfDigits fracd.1) ((10 : Nat) ^ fracd.1.length))
    let q : ℚ := if signed.1 then ratNeg mant else mant
    match fracd.2 with
    | [] => some q
    | c :: rr =>
      if c = 'e' ∨ c = 'E' then
        let esigned : Bool × PyStr :=
          match rr with
          | c2 :: r2 => if c2 = '-' then (true, r2) else if c2 = '+' then (false, r2) else (false, rr)
          | [] => (false, rr)
        let eds := esigned.2.takeWhile isDigitCh
        if eds = [] ∨ esigned.2.dropWhile isDigitCh ≠ [] then none
        else some (ratMul q
          (pow10 (if esigned.1 then -(natOfDigits eds : Int) else (natOfDigits eds : Int))))
      else none

/-- `float(x)` applied to a decoded JSON value: numbers pass through, bools
become 0/1, strings are parsed, everything else raises (`none`). -/
def pyFloat : JsonVal → Option ℚ
  | .num q => some q
  | .bool b => some (if b then 1 else 0)
  | .str s => pyFloatOfString s
  | _ => none

/-- Decimal digits of a natural number. -/
def natDigits (n : Nat) : PyStr := Nat.toDigits 10 n

/-- Decimal rendering of a rational, used by the `str()` model for numbers:
exact when the denominator divides a power of ten (every value `json.loads`
produces), integer-truncated otherwise. -/
def ratRepr (q : ℚ) : PyStr :=
  let sign : PyStr := if q < 0 then ['-'] else []
  let n := q.num.natAbs
  let d := q.den
  if d = 1 then sign ++ natDigits n
  else
    match (List.range 40).find? (fun k => 10 ^ k % d = 0) with
    | some k =>
      let scaled := n * (10 ^ k / d)
      let digs := natDigits scaled
      let digs := (List.replicate (k + 1 - digs.length) '0') ++ digs
      sign ++ digs.take (digs.length - k) ++ ['.'] ++ digs.drop (digs.length - k)
    | none => sign ++ natDigits (n / d)

mutual

/-- `repr(x)` on a decoded JSON value: containers render with Python's
`repr` of their elements, strings with single quotes. -/
def pyRepr : JsonVal → PyStr
  | .null => ("None").data
  | .bool b => if b then ("True").data else ("False").data
  | .num q => ratRepr q
  | .str s => squote :: s ++ [squote]
  | .arr xs => '[' :: List.intercalate ((", ").data) (pyReprL xs) ++ [']']
  | .obj kvs => lbrace :: List.intercalate ((", ").data) (pyReprO kvs) ++ [rbrace]

def pyReprL : List JsonVal → List PyStr
  | [] => []
  | x :: xs => pyRepr x :: pyReprL xs

def pyReprO : List (PyStr × JsonVal) → List PyStr
  | [] => []
  | p :: ps => (squote :: p.1 ++ [squote] ++ (": ").data ++ pyRepr p.2) :: pyReprO ps

end

/-- `str(x)`, as `_coerce_feedback_shape` applies it to a non-list
`issues`/`recommendations` value: bare strings print without quotes,
everything else as its `repr`. -/
def pyStrOf : JsonVal → PyStr
  | .str s => s
  | v => pyRepr v

/-! ## The regex repairs of `extract_json_from_text`

Each `re` operation of the source is modelled at character level with the
semantics of its one specific pattern. -/

/-- One reduction step bound: `re.sub(r",(\s*[}\]])", r"\1", s)` — scan left
to right; a comma followed by whitespace and a closing brace/bracket loses
the comma, and scanning resumes after the bracket. -/
def removeTrailingCommasGo : Nat → List Char → List Char
  | 0, s => s
  | fuel + 1, s =>
    match s with
    | [] => []
    | c :: rest =>
      if c = ',' then
        match rest.dropWhile isPyWs with
        | c2 :: r2 =>
          if c2 = rbrace ∨ c2 = ']' then
            rest.takeWhile isPyWs ++ c2 :: removeTrailingCommasGo fuel r2
          else c :: removeTrailingCommasGo fuel rest
        | [] => c :: removeTrailingCommasGo fuel rest
      else c :: removeTrailingCommasGo fuel rest

def removeTrailingCommas (s : List Char) : List Char :=
  removeTrailingCommasGo s.length s

/-- `candidate.replace("\n", " ").replace("\r", "")`. -/
def flattenNewlines (s : List Char) : List Char :=
  (s.map (fun c => if c = '\n' then ' ' else c)).filter (fun c => !(c == '\r'))

/-- `re.search(r"\{[\s\S]*\}", s)`: the greedy match runs from the first `{`
to the last `}` when that last `}` lies beyond the first `{`. -/
def braceSpan (s : List Char) : Option (List Char) :=
  match List.findIdx? (fun c => c == lbrace) s with
  | none => none
  | some i =>
    match List.findIdx? (fun c => c == rbrace) s.reverse with
    | none => none
    | some rj =>
      let j := s.length - 1 - rj
      if i < j then some ((s.drop i).take (j - i + 1)) else none

/-- The depth-counter scan of lines 130-143: from the first `{`, walk the
text incrementing on `{` and decrementing on `}`; the span up to the point
the counter returns to zero is the candidate object. -/
def braceScanGo : List Char → Int → List Char → Option (List Char)
  | [], _, _ => none
  | c :: rest, n, acc =>
    if c = lbrace then braceScanGo rest (n + 1) (c :: acc)
    else if c = rbrace then
      if n - 1 = 0 then some (c :: acc).reverse
      else braceScanGo rest (n - 1) (c :: acc)
    else braceScanGo rest n (c :: acc)

/-- One sub step of `re.sub(r"^```(?:json)?\s*|\s*```$", "", s, flags=re.MULTILINE)`,
tracking whether the scan position sits at a line start.  The first
alternative fires at a line start on three backticks, optionally `json`,
then swallows following whitespace; the second fires on whitespace whose
maximal run is followed by three backticks at an end of line.  Fuel again
only serves termination (every step consumes at least one character). -/
def stripFencesGo : Nat → List Char → Bool → List Char
  | 0, s, _ => s
  | fuel + 1, s, atLS =>
    match s with
    | [] => []
    | c :: rest =>
      if atLS && hasPrefixL [btick, btick, btick] s then
        let s1 := s.drop 3
        let hasJson := hasPrefixL ("json").data s1
        let s2 := if hasJson then s1.drop 4 else s1
        let ws := s2.takeWhile isPyWs
        let s3 := s2.dropWhile isPyWs
        let lastC : Char :=
          match ws.getLast? with
          | some w => w
          | none => if hasJson then 'n' else btick
        stripFencesGo fuel s3 (lastC == '\n')
      else
        let after := s.dropWhile isPyWs
        let atEol : Bool :=
          match (after.drop 3).head? with
          | none => true
          | some c2 => c2 == '\n'
        if hasPrefixL [btick, btick, btick] after && atEol then
          stripFencesGo fuel (after.drop 3) false
        else
          c :: stripFencesGo fuel rest (c == '\n')

def stripFences (s : List Char) : List Char :=
  stripFencesGo (s.length + 1) s true

/-! ## `extract_json_from_text` (lines 98-150) -/

/-- The fixed fallback object of line 149. -/
def safeDefault : JsonVal :=
  .obj [ (("confidence").data, .num ((1 : ℚ) / 2))
       , (("feedback").data, .str ("JSON parsing error in review").data)
       , (("approved").data, .bool false) ]

/-- `extract_json_from_text`: strip code fences, try a direct parse, then the
first-to-last brace span, then trailing-comma removal, then newline
flattening plus comma removal, then the depth-counter scan; an irreparable
brace span yields `safeDefault`, while empty input or text with no brace
span yields `none`. -/
def extract_json_from_text (text : PyStr) : Option JsonVal :=
  if text = [] then none
  else
    let stripped := stripFences (pyStrip text)
    match json_loads stripped with
    | some v => some v
    | none =>
      match braceSpan stripped with
      | none => none
      | some candidate =>
        match json_loads candidate with
        | some v => some v
        | none =>
          match json_loads (removeTrailingCommas candidate) with
          | some v => some v
          | none =>
            match json_loads (removeTrailingCommas (flattenNewlines candidate)) with
            | some v => some v
            | none =>
              match List.findIdx? (fun c => c == lbrace) candidate with
              | none => none
              | some i =>
                match braceScanGo (candidate.drop i) 0 [] with
                | some part =>
                  match json_loads (removeTrailingCommas part) with
                  | some v => some v
                  | none => some safeDefault
                | none => some safeDefault

/-! ## `score_agent2` (lines 152-171)

The LLM call is an external collaborator; the model takes the raw text it
returned.  A parsed object carrying `agent2_confidence` yields the value
clamped into `[0,1]`; a failed extraction, a non-object result, a missing
key, or a value `float()` rejects all fall through to `None`. -/

/-- The key `score_agent2` reads from the parsed scoring response. -/
def agent2ConfKey : PyStr := ("agent2_confidence").data

def score_agent2 (raw_score : PyStr) : Option ℚ :=
  match extract_json_from_text raw_score with
  | some (.obj kvs) =>
    match dictGet kvs agent2ConfKey with
    | some v =>
      match pyFloat v with
      | some x => some (max 0 (min 1 x))
      | none => none
    | none => none
  | _ => none

/-! ## `_coerce_feedback_shape` (lines 173-189) -/

/-- The coerced feedback record (spec name `ReviewFeedback`). -/
structure ReviewFeedback where
  issues : List JsonVal
  recommendations : List JsonVal
  confidence : ℚ

/-- Sequence coercion for `issues`/`recommendations`: a missing key defaults
to `[]`, a list stays as is, anything else becomes `[str(x)]`. -/
def coerceSeq : Option JsonVal → List JsonVal
  | none => []
  | some (.arr xs) => xs
  | some v => [.str (pyStrOf v)]

/-- `_coerce_feedback_shape`: coerce `issues`/`recommendations` to lists and
`confidence` through `float()` (defaulting to `0.5` on a missing key or a
raised conversion) followed by clamping into `[0,1]`. -/
def coerce_feedback_shape (obj : List (PyStr × JsonVal)) : ReviewFeedback :=
  let conf0 : ℚ :=
    match dictGet obj (("confidence").data) with
    | none => 1 / 2
    | some v =>
      match pyFloat v with
      | some x => x
      | none => 1 / 2
  { issues := coerceSeq (dictGet obj (("issues").data))
  , recommendations := coerceSeq (dictGet obj (("recommendations").data))
  , confidence := max 0 (min 1 conf0) }

/-! ## `run_review_agent` (lines 191-253) -/

/-- The penalty application of lines 229-232:
`conf = max(0.0, min(1.0, conf - reduction))`. -/
def apply_penalty (conf reduction : ℚ) : ℚ := max 0 (min 1 (conf - reduction))

/-- A check record of the renal tool output is dropped exactly when its
`status` is the string `"missing"` and its `priority` the string
`"optional"` (lines 198-201; a missing key reads as `None`, which compares
unequal to either string). -/
def checkDropped (c : List (PyStr × JsonVal)) : Bool :=
  (match dictGet c (("status").data) with
   | some (.str s) => decide (s = ("missing").data)
   | _ => false)
  && (match dictGet c (("priority").data) with
      | some (.str s) => decide (s = ("optional").data)
      | _ => false)

/-- The rule-evaluation collaborator's output: its sequence of check records
plus its remaining fields. -/
structure RenalOut where
  checks : List (List (PyStr × JsonVal))
  rest : List (PyStr × JsonVal)

/-- The tool output as the JSON-like mapping placed into the result. -/
def renalToJson (r : RenalOut) : JsonVal :=
  .obj ((("checks").data, .arr (r.checks.map .obj)) :: r.rest)

/-- Python truthiness of a decoded JSON value, for `parsed or \x7b\x7d`. -/
def jsonFalsy : JsonVal → Bool
  | .null => true
  | .bool b => !b
  | .num q => decide (q = 0)
  | .str s => s.isEmpty
  | .arr xs => xs.isEmpty
  | .obj kvs => kvs.isEmpty

/-- The external collaborators of one `run_review_agent` call: the renal
tool's output, the raw texts of the two LLM calls, the hallucination
detector's `confidence_reduction` (and its full report as placed in the
result), and the `now_iso()` timestamp. -/
structure ReviewEnv where
  renal : RenalOut
  score_raw : PyStr
  review_raw : PyStr
  confidence_reduction : ℚ
  hall_json : JsonVal
  timestamp : PyStr

/-- What one `run_review_agent` call produces: the returned mapping plus, for
the dataflow claims, the tool output as passed to each downstream consumer
and the draft feedback handed to the hallucination analysis. -/
structure ReviewTrace where
  result : List (PyStr × JsonVal)
  normalized_patient : List (PyStr × JsonVal)
  score_call_renal : RenalOut
  review_prompt_renal : RenalOut
  hall_call_renal : RenalOut
  hall_call_draft : ReviewFeedback

/-- `run_review_agent`: normalize the record, filter the tool checks, obtain
the optional score, extract and coerce the review response, apply the
penalty, and assemble the result (the Python code raises `AttributeError`
when the extracted value is a truthy non-dict, modelled by `none`). -/
def run_review_agent (raw_patient : List (PyStr × JsonVal)) (env : ReviewEnv) :
    Option ReviewTrace :=
  let patient_data := normalize_fields raw_patient
  let renal_out : RenalOut :=
    { checks := env.renal.checks.filter (fun c => !(checkDropped c))
    , rest := env.renal.rest }
  let agent2_confidence := score_agent2 env.score_raw
  let llm_raw := env.review_raw
  let parsed : JsonVal :=
    match extract_json_from_text llm_raw with
    | none => .obj []
    | some v => if jsonFalsy v then .obj [] else v
  match parsed with
  | .obj kvs =>
    let fb := coerce_feedback_shape kvs
    let conf := apply_penalty fb.confidence env.confidence_reduction
    some
      { result :=
          [ (("issues").data, .arr fb.issues)
          , (("recommendations").data, .arr fb.recommendations)
          , (("confidence").data, .num conf)
          , (("agent2_confidence").data,
              match agent2_confidence with
              | some x => .num x
              | none => .null)
          , (("timestamp").data, .str env.timestamp)
          , (("tool_outputs").data, .obj [(("renal").data, renalToJson renal_out)])
          , (("llm_raw").data, .str llm_raw)
          , (("hallucination_analysis").data, env.hall_json)
          , (("feedback").data,
              .obj [ (("issues").data, .arr fb.issues)
                   , (("recommendations").data, .arr fb.recommendations)
                   , (("confidence").data, .num conf) ]) ]
      , normalized_patient := patient_data
      , score_call_renal := renal_out
      , review_prompt_renal := renal_out
      , hall_call_renal := renal_out
      , hall_call_draft := fb }
  | _ => none

/-! ## `load_patient_data` (lines 66-84) -/

/-- `text.split(",")`. -/
def splitOnCommaGo : List Char → PyStr → List PyStr
  | [], cur => [cur.reverse]
  | c :: rest, cur =>
    if c = ',' then cur.reverse :: splitOnCommaGo rest []
    else splitOnCommaGo rest (c :: cur)

def splitOnComma (s : PyStr) : List PyStr := splitOnCommaGo s []

/-- `text.splitlines()` on the common line boundaries. -/
def splitLinesGo : List Char → PyStr → List PyStr
  | [], cur => if cur = [] then [] else [cur.reverse]
  | '\r' :: '\n' :: rest, cur => cur.reverse :: splitLinesGo rest []
  | '\r' :: rest, cur => cur.reverse :: splitLinesGo rest []
  | '\n' :: rest, cur => cur.reverse :: splitLinesGo rest []
  | c :: rest, cur => splitLinesGo rest (c :: cur)

def splitLines (s : PyStr) : List PyStr := splitLinesGo s []

/-- `load_patient_data`, as a function of the file's text: strip, try JSON,
try the CSV heuristic (where a missing second line raises an uncaught
`IndexError`, modelled by `none`), else wrap as `\x7b"raw_text": text\x7d`. -/
def load_patient_data (text : PyStr) : Option JsonVal :=
  let t := pyStrip text
  match json_loads t with
  | some v => some v
  | none =>
    let parts := (splitOnComma t).map pyStrip
    if parts.length > 1 then
      match pyFloatOfString (parts.headD []) with
      | some _ => some (.obj [(("raw_text").data, .str t)])
      | none =>
        match splitLines t with
        | l0 :: l1 :: _ =>
          let header := (splitOnComma l0).map pyStrip
          let values := (splitOnComma l1).map pyStrip
          some (.obj ((header.zip values).foldl
            (fun acc p => dictInsert acc p.1 (.str p.2)) []))
        | _ => none
    else some (.obj [(("raw_text").data, .str t)])

/-! ## The orchestration loop of `run_pipeline` (`main.py`, lines 64-110)

Each iteration's review confidence is an external input, modelled as the
sequence `conf` (iteration numbers are 1-based).  The Python loop guard
`loop_count < 6` bounds the iteration count by 6, so a fuel of 7 makes the
fuel parameter inert: the loop always exits through its own guard or its
break. -/

def loopGo (conf : Nat → ℚ) : Nat → Nat → Nat
  | 0, lc => lc
  | fuel + 1, lc =>
    if lc < 6 then
      if 2 ≤ lc + 1 ∧ (3 : ℚ) / 4 ≤ conf (lc + 1) then lc + 1
      else loopGo conf fuel (lc + 1)
    else lc

/-- `loops_run` as returned by `run_pipeline`: the loop counter after the
`while` loop, for the given per-iteration feedback confidences. -/
def run_pipeline_loops (conf : Nat → ℚ) : Nat := loopGo conf 7 0

/-- A finite confidence scenario: iteration `k` reads the `k`-th list entry
(0 past the end, matching `review_feedback.get("confidence", 0)`). -/
def confOfList (l : List ℚ) (k : Nat) : ℚ := l.getD (k - 1) 0

/-- The claim's characterization of the stopping iteration: the first
`k ≥ 2` (within the cap) whose confidence meets the 0.75 threshold, else 6. -/
def firstThreshold (conf : Nat → ℚ) : Nat :=
  if (3 : ℚ) / 4 ≤ conf 2 then 2
  else if (3 : ℚ) / 4 ≤ conf 3 then 3
  else if (3 : ℚ) / 4 ≤ conf 4 then 4
  else if (3 : ℚ) / 4 ≤ conf 5 then 5
  else 6

/-! ## Dict-level lemmas for the normalizer -/

theorem dictInsert_mem {d : List (PyStr × α)} {k : PyStr} {v : α} {p : PyStr × α}
    (h : p ∈ dictInsert d k v) : p ∈ d ∨ p = (k, v) := by
  unfold dictInsert at h
  split at h
  · obtain ⟨q, hq, hqe⟩ := List.mem_map.mp h
    by_cases hk : q.1 = k
    · rw [if_pos hk] at hqe
      right
      exact hqe.symm
    · rw [if_neg hk] at hqe
      left
      exact hqe ▸ hq
  · rcases List.mem_append.mp h with h1 | h2
    · left
      exact h1
    · right
      simpa using h2

theorem keys_dictInsert_pos {d : List (PyStr × α)} {k : PyStr} {v : α}
    (h : d.any (fun p => decide (p.1 = k)) = true) :
    (dictInsert d k v).map Prod.fst = d.map Prod.fst := by
  unfold dictInsert
  rw [if_pos h, List.map_map]
  apply List.map_congr_left
  intro p _
  by_cases hk : p.1 = k
  · simp [hk]
  · simp [hk]

theorem keys_dictInsert_neg {d : List (PyStr × α)} {k : PyStr} {v : α}
    (h : ¬ d.any (fun p => decide (p.1 = k)) = true) :
    (dictInsert d k v).map Prod.fst = d.map Prod.fst ++ [k] := by
  unfold dictInsert
  rw [if_neg h]
  simp

theorem not_mem_keys_of_any_false {d : List (PyStr × α)} {k : PyStr}
    (h : ¬ d.any (fun p => decide (p.1 = k)) = true) : k ∉ d.map Prod.fst := by
  intro hmem
  apply h
  rw [List.any_eq_true]
  obtain ⟨p, hp, hpk⟩ := List.mem_map.mp hmem
  exact ⟨p, hp, by simp [hpk]⟩

theorem nodup_keys_dictInsert {d : List (PyStr × α)} {k : PyStr} {v : α}
    (h : (d.map Prod.fst).Nodup) : ((dictInsert d k v).map Prod.fst).Nodup := by
  by_cases ha : d.any (fun p => decide (p.1 = k)) = true
  · rw [keys_dictInsert_pos ha]
    exact h
  · rw [keys_dictInsert_neg ha]
    rw [List.nodup_append]
    refine ⟨h, List.nodup_singleton k, ?_⟩
    intro x hx hx1
    rw [List.mem_singleton] at hx1
    exact not_mem_keys_of_any_false ha (hx1 ▸ hx)

/-- Every entry of a `normalize_fields` fold comes from the accumulator or,
with its key canonicalized, from the input. -/
theorem normalize_fold_mem {d acc : List (PyStr × α)} {p : PyStr × α}
    (h : p ∈ d.foldl (fun acc q => dictInsert acc (canonicalOf q.1) q.2) acc) :
    p ∈ acc ∨ ∃ q ∈ d, p = (canonicalOf q.1, q.2) := by
  induction d generalizing acc with
  | nil => exact Or.inl h
  | cons a t ih =>
    rw [List.foldl_cons] at h
    rcases ih h with h1 | ⟨q, hq, hpe⟩
    · rcases dictInsert_mem h1 with h2 | h2
      · exact Or.inl h2
      · exact Or.inr ⟨a, List.mem_cons_self a t, h2⟩
    · exact Or.inr ⟨q, List.mem_cons_of_mem _ hq, hpe⟩

theorem normalize_fold_nodup (d : List (PyStr × α)) (acc : List (PyStr × α))
    (h : (acc.map Prod.fst).Nodup) :
    ((d.foldl (fun acc q => dictInsert acc (canonicalOf q.1) q.2) acc).map Prod.fst).Nodup := by
  induction d generalizing acc with
  | nil => exact h
  | cons a t ih =>
    rw [List.foldl_cons]
    exact ih _ (nodup_keys_dictInsert h)

/-- Folding the normalizer's insert over entries whose keys are already
canonical and fresh just appends them. -/
theorem normalize_fold_fixed (d : List (PyStr × α)) (acc : List (PyStr × α))
    (hfix : ∀ p ∈ d, canonicalOf p.1 = p.1)
    (hnodup : (d.map Prod.fst).Nodup)
    (hfresh : ∀ p ∈ d, p.1 ∉ acc.map Prod.fst) :
    d.foldl (fun acc q => dictInsert acc (canonicalOf q.1) q.2) acc = acc ++ d := by
  induction d generalizing acc with
  | nil => simp
  | cons a t ih =>
    rw [List.foldl_cons]
    have hca : canonicalOf a.1 = a.1 := hfix a (List.mem_cons_self a t)
    have hany : ¬ acc.any (fun p => decide (p.1 = canonicalOf a.1)) = true := by
      intro hany
      rw [List.any_eq_true] at hany
      obtain ⟨p, hp, hpk⟩ := hany
      rw [decide_eq_true_eq, hca] at hpk
      exact hfresh a (List.mem_cons_self a t) (hpk ▸ List.mem_map_of_mem Prod.fst hp)
    have hstep : dictInsert acc (canonicalOf a.1) a.2 = acc ++ [a] := by
      unfold dictInsert
      rw [if_neg hany, hca]
    rw [hstep]
    rw [List.map_cons, List.nodup_cons] at hnodup
    have := ih (acc ++ [a]) (fun p hp => hfix p (List.mem_cons_of_mem _ hp)) hnodup.2 ?_
    · rw [this, List.append_assoc]
      rfl
    · intro p hp hpin
      rw [List.map_append, List.mem_append] at hpin
      rcases hpin with h1 | h1
      · exact hfresh p (List.mem_cons_of_mem _ hp) h1
      · simp only [List.map_cons, List.map_nil, List.mem_singleton] at h1
        exact hnodup.1 (h1 ▸ List.mem_map_of_mem Prod.fst hp)

/-- C5.  `normalize_fields` is total by construction and idempotent; every
alias key is rewritten to its canonical name; a key outside the alias table
passes through lower-cased and trimmed; and every produced entry carries an
input entry's value untouched under its canonicalized key. -/
theorem normalize_fields_ok :
    (∀ (α : Type) (d : List (PyStr × α)),
      normalize_fields (normalize_fields d) = normalize_fields d)
    ∧ (∀ p ∈ FIELD_ALIASES, canonicalOf p.1 = p.2)
    ∧ (∀ k : PyStr, aliasGet (lowerStrip k) = none → canonicalOf k = lowerStrip k)
    ∧ (∀ (α : Type) (d : List (PyStr × α)) (p : PyStr × α), p ∈ normalize_fields d →
        ∃ q ∈ d, p.1 = canonicalOf q.1 ∧ p.2 = q.2) := by
  refine ⟨?_, alias_keys_mapped, ?_, ?_⟩
  · intro α d
    show (normalize_fields d).foldl _ [] = normalize_fields d
    have hfix : ∀ p ∈ normalize_fields d, canonicalOf p.1 = p.1 := by
      intro p hp
      rcases normalize_fold_mem hp with h1 | ⟨q, _, rfl⟩
      · simp at h1
      · exact canonicalOf_fixed q.1
    have hnodup : ((normalize_fields d).map Prod.fst).Nodup :=
      normalize_fold_nodup d [] (by simp)
    have := normalize_fold_fixed (normalize_fields d) [] hfix hnodup (by simp)
    rw [this]
    rfl
  · intro k h
    unfold canonicalOf
    rw [h]
  · intro α d p hp
    rcases normalize_fold_mem hp with h1 | ⟨q, hq, rfl⟩
    · simp at h1
    · exact ⟨q, hq, rfl, rfl⟩

/-- Witness for C5 at concrete inputs: a messy-cased alias key normalizes to
its canonical name, and normalization is idempotent there. -/
theorem normalize_fields_ok_witness :
    normalize_fields (normalize_fields [((" Serum_Creatinine ").data, (3 : Nat))])
      = normalize_fields [((" Serum_Creatinine ").data, (3 : Nat))]
    ∧ canonicalOf (("cr").data) = ("creatinine_mg_dl").data := by
  constructor
  · exact normalize_fields_ok.1 Nat _
  · exact normalize_fields_ok.2.1 ((("cr").data, ("creatinine_mg_dl").data)) (by decide)

/-- C4.  For a coerced base confidence in `[0,1]` and any non-negative
`confidence_reduction`, the penalty application of lines 229-232 stays in
`[0,1]` and never exceeds the base confidence. -/
theorem apply_penalty_ok (c r : ℚ) (h0 : 0 ≤ c) (_h1 : c ≤ 1) (hr : 0 ≤ r) :
    0 ≤ apply_penalty c r ∧ apply_penalty c r ≤ 1 ∧ apply_penalty c r ≤ c := by
  unfold apply_penalty
  refine ⟨le_max_left 0 _, max_le (by norm_num) (min_le_left 1 _),
    max_le h0 (le_trans (min_le_right 1 (c - r)) (by linarith))⟩

/-- Witness for C4: a penalty larger than the whole confidence still lands
in `[0,1]` and below the base. -/
theorem apply_penalty_ok_witness :
    0 ≤ apply_penalty ((1 : ℚ) / 2) 3 ∧ apply_penalty ((1 : ℚ) / 2) 3 ≤ 1
    ∧ apply_penalty ((1 : ℚ) / 2) 3 ≤ (1 : ℚ) / 2 :=
  apply_penalty_ok ((1 : ℚ) / 2) 3 (by norm_num) (by norm_num) (by norm_num)

/-- C6.  `_coerce_feedback_shape` always yields the `ReviewFeedback` shape:
a missing `issues`/`recommendations` key becomes `[]`, a present non-list
value becomes the one-element sequence of its `str()` form, and the
confidence is a rational in `[0,1]` that defaults to `0.5` when the key is
absent or its value is not coercible by `float()`. -/
theorem coerce_feedback_shape_ok (obj : List (PyStr × JsonVal)) :
    (dictGet obj (("issues").data) = none → (coerce_feedback_shape obj).issues = [])
    ∧ (∀ v, dictGet obj (("issues").data) = some v → (∀ xs, v ≠ .arr xs) →
        (coerce_feedback_shape obj).issues = [.str (pyStrOf v)])
    ∧ (dictGet obj (("recommendations").data) = none →
        (coerce_feedback_shape obj).recommendations = [])
    ∧ (∀ v, dictGet obj (("recommendations").data) = some v → (∀ xs, v ≠ .arr xs) →
        (coerce_feedback_shape obj).recommendations = [.str (pyStrOf v)])
    ∧ 0 ≤ (coerce_feedback_shape obj).confidence
    ∧ (coerce_feedback_shape obj).confidence ≤ 1
    ∧ (dictGet obj (("confidence").data) = none →
        (coerce_feedback_shape obj).confidence = 1 / 2)
    ∧ (∀ v, dictGet obj (("confidence").data) = some v → pyFloat v = none →
        (coerce_feedback_shape obj).confidence = 1 / 2) := by
  have hseq : ∀ o : Option JsonVal, (∀ v, o = some v → (∀ xs, v ≠ .arr xs)) →
      ∀ v, o = some v → coerceSeq o = [.str (pyStrOf v)] := by
    intro o ho v hv
    subst hv
    unfold coerceSeq
    cases v with
    | arr xs => exact absurd rfl (ho (.arr xs) rfl xs)
    | null => rfl
    | bool b => rfl
    | num q => rfl
    | str s => rfl
    | obj kvs => rfl
  refine ⟨?_, ?_, ?_, ?_, ?_, ?_, ?_, ?_⟩
  · intro h
    show coerceSeq (dictGet obj (("issues").data)) = []
    rw [h]
    rfl
  · intro v hv hnl
    show coerceSeq (dictGet obj (("issues").data)) = _
    exact hseq _ (fun w hw => by rw [hv] at hw; exact Option.some.inj hw ▸ hnl) v hv
  · intro h
    show coerceSeq (dictGet obj (("recommendations").data)) = []
    rw [h]
    rfl
  · intro v hv hnl
    show coerceSeq (dictGet obj (("recommendations").data)) = _
    exact hseq _ (fun w hw => by rw [hv] at hw; exact Option.some.inj hw ▸ hnl) v hv
  · exact le_max_left 0 _
  · exact max_le (by norm_num) (min_le_left 1 _)
  · intro h
    show max 0 (min 1 _) = 1 / 2
    rw [h]
    norm_num
  · intro v hv hf
    show max 0 (min 1 _) = 1 / 2
    rw [hv]
    simp only [hf]
    norm_num

/-- Witness for C6: a bare string under `issues` becomes its one-element
string sequence, and a non-coercible `confidence` defaults to `0.5`. -/
theorem coerce_feedback_shape_ok_witness :
    (coerce_feedback_shape
        [ (("issues").data, .str ("x").data)
        , (("confidence").data, .arr []) ]).issues
      = [.str (pyStrOf (.str ("x").data))]
    ∧ (coerce_feedback_shape
        [ (("issues").data, .str ("x").data)
        , (("confidence").data, .arr []) ]).confidence = 1 / 2 := by
  constructor
  · exact (coerce_feedback_shape_ok _).2.1 (.str ("x").data) (by rfl)
      (fun xs h => JsonVal.noConfusion h)
  · exact (coerce_feedback_shape_ok _).2.2.2.2.2.2.2 (.arr []) (by rfl) (by rfl)

/-! ## The loop claim -/

theorem loopGo_succ (conf : Nat → ℚ) (f lc : Nat) :
    loopGo conf (f + 1) lc =
      if lc < 6 then
        if 2 ≤ lc + 1 ∧ (3 : ℚ) / 4 ≤ conf (lc + 1) then lc + 1
        else loopGo conf f (lc + 1)
      else lc := rfl

theorem firstThreshold_le (conf : Nat → ℚ) : firstThreshold conf ≤ 6 := by
  unfold firstThreshold
  split_ifs <;> norm_num

/-- C1.  For every sequence of feedback confidences the loop of
`run_pipeline` runs at most 6 iterations, `loops_run` is exactly the first
iteration `k ≥ 2` whose confidence meets 0.75 (6 when none within the cap
does), and the two spec scenarios come out as 2 and 6. -/
theorem run_pipeline_loops_ok :
    (∀ conf : Nat → ℚ, run_pipeline_loops conf ≤ 6 ∧
      run_pipeline_loops conf = firstThreshold conf)
    ∧ run_pipeline_loops (confOfList [3 / 10, 9 / 10]) = 2
    ∧ run_pipeline_loops
        (confOfList [9 / 10, 2 / 10, 2 / 10, 2 / 10, 2 / 10, 2 / 10]) = 6 := by
  have key : ∀ conf : Nat → ℚ, run_pipeline_loops conf = firstThreshold conf := by
    intro conf
    have e0 : run_pipeline_loops conf = loopGo conf 6 1 := rfl
    rw [e0]
    unfold firstThreshold
    by_cases h2 : (3 : ℚ) / 4 ≤ conf 2
    · rw [if_pos h2]
      show loopGo conf (5 + 1) 1 = 2
      rw [loopGo_succ, if_pos (by norm_num), if_pos ⟨by norm_num, h2⟩]
    · rw [if_neg h2]
      have s2 : loopGo conf 6 1 = loopGo conf 5 2 := by
        show loopGo conf (5 + 1) 1 = _
        rw [loopGo_succ, if_pos (by norm_num), if_neg (fun hand => h2 hand.2)]
      rw [s2]
      by_cases h3 : (3 : ℚ) / 4 ≤ conf 3
      · rw [if_pos h3]
        show loopGo conf (4 + 1) 2 = 3
        rw [loopGo_succ, if_pos (by norm_num), if_pos ⟨by norm_num, h3⟩]
      · rw [if_neg h3]
        have s3 : loopGo conf 5 2 = loopGo conf 4 3 := by
          show loopGo conf (4 + 1) 2 = _
          rw [loopGo_succ, if_pos (by norm_num), if_neg (fun hand => h3 hand.2)]
        rw [s3]
        by_cases h4 : (3 : ℚ) / 4 ≤ conf 4
        · rw [if_pos h4]
          show loopGo conf (3 + 1) 3 = 4
          rw [loopGo_succ, if_pos (by norm_num), if_pos ⟨by norm_num, h4⟩]
        · rw [if_neg h4]
          have s4 : loopGo conf 4 3 = loopGo conf 3 4 := by
            show loopGo conf (3 + 1) 3 = _
            rw [loopGo_succ, if_pos (by norm_num), if_neg (fun hand => h4 hand.2)]
          rw [s4]
          by_cases h5 : (3 : ℚ) / 4 ≤ conf 5
          · rw [if_pos h5]
            show loopGo conf (2 + 1) 4 = 5
            rw [loopGo_succ, if_pos (by norm_num), if_pos ⟨by norm_num, h5⟩]
          · rw [if_neg h5]
            have s5 : loopGo conf 3 4 = loopGo conf 2 5 := by
              show loopGo conf (2 + 1) 4 = _
              rw [loopGo_succ, if_pos (by norm_num), if_neg (fun hand => h5 hand.2)]
            rw [s5]
            show loopGo conf (1 + 1) 5 = 6
            rw [loopGo_succ, if_pos (by norm_num)]
            by_cases h6 : (3 : ℚ) / 4 ≤ conf 6
            · rw [if_pos ⟨by norm_num, h6⟩]
            · rw [if_neg (fun hand => h6 hand.2)]
              rfl
  refine ⟨fun conf => ⟨?_, key conf⟩, ?_, ?_⟩
  · rw [key conf]
    exact firstThreshold_le conf
  · rw [key]
    unfold firstThreshold
    have c2 : confOfList [3 / 10, 9 / 10] 2 = 9 / 10 := rfl
    rw [c2, if_pos (by norm_num)]
  · rw [key]
    unfold firstThreshold
    have c2 : confOfList [9 / 10, 2 / 10, 2 / 10, 2 / 10, 2 / 10, 2 / 10] 2 = 2 / 10 := rfl
    have c3 : confOfList [9 / 10, 2 / 10, 2 / 10, 2 / 10, 2 / 10, 2 / 10] 3 = 2 / 10 := rfl
    have c4 : confOfList [9 / 10, 2 / 10, 2 / 10, 2 / 10, 2 / 10, 2 / 10] 4 = 2 / 10 := rfl
    have c5 : confOfList [9 / 10, 2 / 10, 2 / 10, 2 / 10, 2 / 10, 2 / 10] 5 = 2 / 10 := rfl
    rw [c2, if_neg (by norm_num), c3, if_neg (by norm_num), c4, if_neg (by norm_num),
      c5, if_neg (by norm_num)]

/-! ## The extractor claims -/

/-- The review text of spec Scenario C (a JSON object with a trailing comma
embedded in chatter). -/
def scenarioCText : PyStr :=
  ("sure, here: \x7b\"issues\": [\"a\"], \"recommendations\": [\"b\"], \"confidence\": 0.8,\x7d").data

/-- C7.  On Scenario C's exact text the extractor returns the comma-free
object `\x7b"issues": ["a"], "recommendations": ["b"], "confidence": 0.8\x7d`
(`mkRat 4 5` is the rational 0.8). -/
theorem extract_scenarioC :
    extract_json_from_text scenarioCText
      = some (.obj [ (("issues").data, .arr [.str ("a").data])
                   , (("recommendations").data, .arr [.str ("b").data])
                   , (("confidence").data, .num (mkRat 4 5)) ]) := rfl

/-- C2 counterexample: the input `"hello world"` contains no brace, no JSON
object can be recovered from it, and `extract_json_from_text` returns `None`
— not the safe-default object the claim promises. -/
theorem extract_no_brace_counterexample :
    extract_json_from_text (("hello world").data) = none := rfl

/-- A successful brace-span search yields a span starting with `\x7b`. -/
theorem braceSpan_starts {s cand : PyStr} (h : braceSpan s = some cand) :
    ∃ r, cand = lbrace :: r := by
  unfold braceSpan at h
  cases hf : List.findIdx? (fun c => c == lbrace) s with
  | none => rw [hf] at h; cases h
  | some i =>
    rw [hf] at h
    cases hr : List.findIdx? (fun c => c == rbrace) s.reverse with
    | none => rw [hr] at h; cases h
    | some rj =>
      rw [hr] at h
      dsimp only at h
      by_cases hij : i < s.length - 1 - rj
      · rw [if_pos hij] at h
        obtain ⟨hlen, hpi, _⟩ := List.findIdx?_eq_some_iff_getElem.mp hf
        have hdrop : s.drop i = s[i] :: s.drop (i + 1) := List.drop_eq_getElem_cons hlen
        have htake : (s.drop i).take (s.length - 1 - rj - i + 1)
            = s[i] :: (s.drop (i + 1)).take (s.length - 1 - rj - i) := by
          rw [hdrop]
          rfl
        rw [htake] at h
        refine ⟨(s.drop (i + 1)).take (s.length - 1 - rj - i), ?_⟩
        have hc : s[i] = lbrace := by
          have := of_decide_eq_true hpi
          exact this
        rw [← Option.some.inj h, hc]
      · rw [if_neg hij] at h
        cases h

/-- C2 (amended).  For nonempty input whose fence-stripped text defeats the
direct parse: with no brace span the extractor returns `None`; with a brace
span that every repair stage fails to parse it returns the fixed safe
default — so the safe-default guarantee holds exactly when a `\x7b...\x7d`
span exists. -/
theorem extract_irrecoverable (text : PyStr) (hne : text ≠ [])
    (hdirect : json_loads (stripFences (pyStrip text)) = none) :
    (braceSpan (stripFences (pyStrip text)) = none → extract_json_from_text text = none)
    ∧ (∀ cand, braceSpan (stripFences (pyStrip text)) = some cand →
        json_loads cand = none →
        json_loads (removeTrailingCommas cand) = none →
        json_loads (removeTrailingCommas (flattenNewlines cand)) = none →
        (braceScanGo cand 0 []).bind (fun part => json_loads (removeTrailingCommas part)) = none →
        extract_json_from_text text = some safeDefault) := by
  constructor
  · intro hnone
    unfold extract_json_from_text
    rw [if_neg hne]
    simp only [hdirect, hnone]
  · intro cand hspan h1 h2 h3 hscan
    obtain ⟨r, rfl⟩ := braceSpan_starts hspan
    unfold extract_json_from_text
    rw [if_neg hne]
    simp only [hdirect, hspan, h1, h2, h3]
    have hidx : List.findIdx? (fun c => c == lbrace) (lbrace :: r) = some 0 := by
      rw [List.findIdx?_cons]
      simp
    simp only [hidx, List.drop_zero]
    cases hgo : braceScanGo (lbrace :: r) 0 [] with
    | none => rfl
    | some part =>
      rw [hgo] at hscan
      simp only [Option.some_bind] at hscan
      simp only [hscan]

/-- Witness for the amended C2 at a concrete irrecoverable input with a
brace span: the extractor yields the safe default. -/
theorem extract_irrecoverable_witness :
    extract_json_from_text (("a \x7bb\x7d c").data) = some safeDefault :=
  (extract_irrecoverable (("a \x7bb\x7d c").data) (by decide) rfl).2
    (("\x7bb\x7d").data) rfl rfl rfl rfl rfl

/-! ## The scorer claims -/

/-- The raw scoring response of the C3 counterexample: a parseable object
whose `agent2_confidence` is the out-of-range 1.5. -/
def scoreOutOfRangeText : PyStr := ("\x7b\"agent2_confidence\": 1.5\x7d").data

/-- C3 counterexample: an out-of-range numeric score is clamped to `1` and
returned, not propagated as the absent value the claim promises. -/
theorem score_agent2_counterexample :
    score_agent2 scoreOutOfRangeText = some 1 ∧ score_agent2 scoreOutOfRangeText ≠ none := by
  have h : score_agent2 scoreOutOfRangeText = some (max 0 (min 1 (mkRat 3 2))) := rfl
  have hv : max 0 (min 1 (mkRat 3 2)) = 1 := by
    rw [Rat.mkRat_eq_div]
    rw [min_eq_left (by norm_num), max_eq_right (by norm_num)]
  rw [h, hv]
  exact ⟨rfl, by simp⟩

/-- C3 (amended).  `score_agent2` clamps any coercible score into `[0,1]`
(so an out-of-range value comes back clamped, not absent), and yields the
absent value `None` exactly on extraction failure, a non-object result, a
missing `agent2_confidence` key, or a value `float()` rejects. -/
theorem score_agent2_spec (raw : PyStr) :
    (∀ v, score_agent2 raw = some v → 0 ≤ v ∧ v ≤ 1)
    ∧ ((∀ kvs, extract_json_from_text raw ≠ some (.obj kvs)) → score_agent2 raw = none)
    ∧ (∀ kvs, extract_json_from_text raw = some (.obj kvs) →
        dictGet kvs agent2ConfKey = none → score_agent2 raw = none)
    ∧ (∀ kvs v, extract_json_from_text raw = some (.obj kvs) →
        dictGet kvs agent2ConfKey = some v → pyFloat v = none →
        score_agent2 raw = none)
    ∧ (∀ kvs v x, extract_json_from_text raw = some (.obj kvs) →
        dictGet kvs agent2ConfKey = some v → pyFloat v = some x →
        score_agent2 raw = some (max 0 (min 1 x))) := by
  refine ⟨?_, ?_, ?_, ?_, ?_⟩
  · intro v hv
    unfold score_agent2 at hv
    split at hv
    · split at hv
      · split at hv
        · rw [← Option.some.inj hv]
          exact ⟨le_max_left 0 _, max_le (by norm_num) (min_le_left 1 _)⟩
        · cases hv
      · cases hv
    · cases hv
  · intro hno
    unfold score_agent2
    split
    · rename_i kvs heq
      exact absurd heq (hno kvs)
    · rfl
  · intro kvs he hd
    simp only [score_agent2, he, hd]
  · intro kvs v he hd hf
    simp only [score_agent2, he, hd, hf]
  · intro kvs v x he hd hf
    simp only [score_agent2, he, hd, hf]

/-- Witness for the amended C3: a non-numeric `agent2_confidence` comes back
as the absent value. -/
theorem score_agent2_spec_witness :
    score_agent2 (("\x7b\"agent2_confidence\": \"abc\"\x7d").data) = none :=
  (score_agent2_spec _).2.2.2.1 [(agent2ConfKey, .str (("abc").data))]
    (.str (("abc").data)) rfl rfl rfl

/-! ## The review-step claims -/

/-- C8.  In `run_review_agent` the optional+missing checks are dropped from
the tool output before it reaches any downstream consumer: the very same
filtered output goes to the scorer, the review prompt, the hallucination
analysis and the returned `tool_outputs`, and the filter keeps every other
check unchanged. -/
theorem run_review_agent_filters (raw_patient : List (PyStr × JsonVal)) (env : ReviewEnv)
    (t : ReviewTrace) (h : run_review_agent raw_patient env = some t) :
    t.score_call_renal.checks = env.renal.checks.filter (fun c => !(checkDropped c))
    ∧ t.review_prompt_renal = t.score_call_renal
    ∧ t.hall_call_renal = t.score_call_renal
    ∧ dictGet t.result (("tool_outputs").data)
        = some (.obj [(("renal").data, renalToJson t.score_call_renal)])
    ∧ (∀ c, c ∈ t.score_call_renal.checks ↔
        c ∈ env.renal.checks ∧ checkDropped c = false) := by
  unfold run_review_agent at h
  dsimp only at h
  split at h
  · rw [← Option.some.inj h]
    refine ⟨rfl, rfl, rfl, rfl, ?_⟩
    intro c
    rw [List.mem_filter]
    simp
  · cases h

/-- Concrete collaborator outputs exercising the check filter: one
optional+missing check, one ok check, an empty-object review response. -/
def envW8 : ReviewEnv :=
  { renal := { checks := [ [ (("status").data, .str ("missing").data)
                           , (("priority").data, .str ("optional").data) ]
                         , [ (("status").data, .str ("ok").data) ] ]
             , rest := [] }
  , score_raw := []
  , review_raw := ("\x7b\x7d").data
  , confidence_reduction := 0
  , hall_json := .null
  , timestamp := ("t").data }

def defaultTrace : ReviewTrace :=
  { result := [], normalized_patient := [], score_call_renal := ⟨[], []⟩
  , review_prompt_renal := ⟨[], []⟩, hall_call_renal := ⟨[], []⟩
  , hall_call_draft := ⟨[], [], 0⟩ }

/-- The trace the review step produces on `envW8`. -/
def traceW8 : ReviewTrace := (run_review_agent [] envW8).getD defaultTrace

/-- Witness for C8: on `envW8` the optional+missing check is gone and the
ok check survives unchanged. -/
theorem run_review_agent_filters_witness :
    traceW8.score_call_renal.checks = [[(("status").data, JsonVal.str ("ok").data)]] := by
  have h := (run_review_agent_filters [] envW8 traceW8 rfl).1
  rw [h]
  rfl

/-- C9.  Every mapping `run_review_agent` returns carries a `feedback`
sub-mapping whose keys are exactly `issues`, `recommendations`,
`confidence`, with values equal to the same-named top-level fields. -/
theorem run_review_agent_feedback_dup (raw_patient : List (PyStr × JsonVal))
    (env : ReviewEnv) (t : ReviewTrace) (h : run_review_agent raw_patient env = some t) :
    ∃ i r c, dictGet t.result (("feedback").data)
        = some (.obj [ (("issues").data, i), (("recommendations").data, r)
                     , (("confidence").data, c) ])
      ∧ dictGet t.result (("issues").data) = some i
      ∧ dictGet t.result (("recommendations").data) = some r
      ∧ dictGet t.result (("confidence").data) = some c := by
  unfold run_review_agent at h
  dsimp only at h
  split at h
  · rw [← Option.some.inj h]
    exact ⟨_, _, _, rfl, rfl, rfl, rfl⟩
  · cases h

/-- Collaborator outputs for the C9 witness: a review response carrying a
confidence, and a nonzero hallucination penalty. -/
def envW9 : ReviewEnv :=
  { renal := { checks := [], rest := [] }
  , score_raw := []
  , review_raw := ("\x7b\"confidence\": 1\x7d").data
  , confidence_reduction := mkRat 1 4
  , hall_json := .null
  , timestamp := ("t2").data }

/-- The trace the review step produces on `envW9`. -/
def traceW9 : ReviewTrace := (run_review_agent [] envW9).getD defaultTrace

/-- Witness for C9: on `envW9` the returned mapping's `feedback` sub-mapping
replicates the top-level `issues`/`recommendations`/`confidence` values. -/
theorem run_review_agent_feedback_dup_witness :
    (dictGet traceW9.result (("issues").data)).isSome = true
    ∧ dictGet traceW9.result (("feedback").data)
      = some (.obj
          [ (("issues").data, (dictGet traceW9.result (("issues").data)).getD .null)
          , (("recommendations").data,
              (dictGet traceW9.result (("recommendations").data)).getD .null)
          , (("confidence").data,
              (dictGet traceW9.result (("confidence").data)).getD .null) ]) := by
  obtain ⟨i, r, c, h1, h2, h3, h4⟩ := run_review_agent_feedback_dup [] envW9 traceW9 rfl
  refine ⟨by rw [h2]; rfl, ?_⟩
  rw [h1, h2, h3, h4]
  rfl

/-! ## The loader claim -/

theorem splitOnCommaGo_no_comma (s : List Char) (cur : PyStr)
    (h : ∀ c ∈ s, c ≠ ',') : splitOnCommaGo s cur = [cur.reverse ++ s] := by
  induction s generalizing cur with
  | nil => simp [splitOnCommaGo]
  | cons a t ih =>
    unfold splitOnCommaGo
    rw [if_neg (h a (List.mem_cons_self a t))]
    rw [ih (a :: cur) (fun c hc => h c (List.mem_cons_of_mem _ hc))]
    simp

/-- C10.  When the file text is neither valid JSON (once stripped) nor
contains a comma, `load_patient_data` falls through both parsers and wraps
the stripped text as the single-key mapping `\x7b"raw_text": text\x7d`. -/
theorem load_patient_data_fallback (text : PyStr)
    (hjson : json_loads (pyStrip text) = none)
    (hcomma : ',' ∉ text) :
    load_patient_data text
      = some (.obj [(("raw_text").data, .str (pyStrip text))]) := by
  have hsplit : splitOnComma (pyStrip text) = [pyStrip text] := by
    unfold splitOnComma
    rw [splitOnCommaGo_no_comma _ _
      (fun c hc he => hcomma (he ▸ mem_of_mem_pyStrip hc))]
    rfl
  unfold load_patient_data
  dsimp only
  rw [hjson]
  simp only [hsplit]
  rfl

/-- Witness for C10 at a concrete free-form input. -/
theorem load_patient_data_fallback_witness :
    load_patient_data (("hello there ").data)
      = some (.obj [(("raw_text").data, .str (pyStrip (("hello there ").data)))]) :=
  load_patient_data_fallback (("hello there ").data) rfl (by decide)
